import Mathlib

/-!
Verification development for the WeatherPrediction pipeline.

Shallow embedding of the rolling-window feature construction of
`04_build_global_window_features.py` (`process_group`, `main`) and of the
in-process variant embedded in `02_data_aggregation.py`
(`create_window_features_aggregated`, next-day target creation), over ℚ.

Modelling conventions:
* A pandas float cell is a `ℚ`; a possibly-NaN target cell is an `Option ℚ`
  with `none` standing for NaN (`np.isnan` holds exactly on `none`).
* A location group (`df.groupby(['latitude','longitude'])` member) is a
  `List DailyRecord`, already date-sorted (the scripts call
  `sort_values('date')` / pre-sort by `(latitude, longitude, date)`;
  the embedding takes the sorted series positionally).
* `np.std` returns the square root of the population variance; since the
  square root of a rational is irrational in general, `ColStats.stdSq`
  carries the square of the code's `std` value (the population variance),
  which determines the `std` field uniquely (nonnegative square root).
* Feature-column values of a record are a `List ℚ` indexed by the position
  of the column name in `feature_cols`; target columns likewise.
-/

namespace WeatherPrediction

/-- A location key `(latitude, longitude)`. -/
abbrev Loc := ℚ × ℚ

/-- One date-sorted row of the daily-features table restricted to the columns
the window builder reads: its date (as an ordinal), the values of the
feature columns, and the (possibly NaN) values of the target columns. -/
structure DailyRecord where
  date : ℤ
  feats : List ℚ
  targets : List (Option ℚ)
  deriving DecidableEq, Repr, Inhabited

/-- Arithmetic mean, as `np.mean` computes it (sum divided by length;
the `0/0 = 0` convention of ℚ only arises on empty input, which the
emitted windows never are for `W ≥ 1`). -/
def npMean (vals : List ℚ) : ℚ := vals.sum / vals.length

/-- Sum of squared deviations from the mean. -/
def ssd (vals : List ℚ) : ℚ := (vals.map (fun v => (v - npMean vals) ^ 2)).sum

/-- Square of `np.std`: the population variance (sum of squared deviations
divided by the length, not length - 1). -/
def npVarPop (vals : List ℚ) : ℚ := ssd vals / vals.length

/-- Minimum of the values, as `np.min` on a nonempty array. -/
def npMin (vals : List ℚ) : ℚ := vals.foldl min (vals.headD 0)

/-- Maximum of the values, as `np.max` on a nonempty array. -/
def npMax (vals : List ℚ) : ℚ := vals.foldl max (vals.headD 0)

/-- The `n` last elements of a list (`vals[-n:]`). -/
def lastN (n : ℕ) (l : List ℚ) : List ℚ := l.drop (l.length - n)

/-- The eight per-column window statistics. `stdSq` is the square of the
code's `std` cell (see the module docstring); `recent_3d = none` models the
key being absent from the row dict, not a null value. -/
structure ColStats where
  mean : ℚ
  stdSq : ℚ
  min : ℚ
  max : ℚ
  first : ℚ
  last : ℚ
  trend : ℚ
  recent_3d : Option ℚ
  deriving DecidableEq, Repr, Inhabited

/-- Statistics of one feature column over one window, as `process_group` in
`04_build_global_window_features.py` computes them (lines 36–45): the
`recent_3d` key is set when `len(vals) >= 3`. -/
def stats04 (vals : List ℚ) : ColStats :=
  { mean := npMean vals
    stdSq := npVarPop vals
    min := npMin vals
    max := npMax vals
    first := vals.headD 0
    last := vals.getLastD 0
    trend := vals.getLastD 0 - vals.headD 0
    recent_3d := if 3 ≤ vals.length then some (npMean (lastN 3 vals)) else none }

/-- Statistics of one feature column over one window, as
`create_window_features_aggregated` in `02_data_aggregation.py` computes
them (lines 55–64): same formulas, but the `recent_3d` key is guarded by
`window_size >= 3` (the parameter, not the slice length). -/
def stats02 (W : ℕ) (vals : List ℚ) : ColStats :=
  { mean := npMean vals
    stdSq := npVarPop vals
    min := npMin vals
    max := npMax vals
    last := vals.getLastD 0
    first := vals.headD 0
    trend := vals.getLastD 0 - vals.headD 0
    recent_3d := if 3 ≤ W then some (npMean (lastN 3 vals)) else none }

/-- The window `group.iloc[i - window_size : i]` of a (sorted) series. -/
def windowAt (s : List DailyRecord) (W i : ℕ) : List DailyRecord :=
  (s.drop (i - W)).take W

/-- The values of feature column `c` down a window (`window[col].values`). -/
def colVals (w : List DailyRecord) (c : ℕ) : List ℚ :=
  w.map (fun r => r.feats.getD c 0)

/-- One output row of the stage-4 builder: target-day date, the location,
the per-feature-column statistics, and the target values copied unchanged
from the target day's record. -/
structure FeatureRow where
  date : ℤ
  loc : Loc
  stats : List ColStats
  targets : List (Option ℚ)
  deriving DecidableEq, Repr, Inhabited

/-- The row `process_group` builds for index `i` (`04`, lines 29–50):
window statistics over `group.iloc[i-W:i]` for each of the `F` feature
columns, date and targets from `group.iloc[i]`. -/
def rowAt04 (loc : Loc) (F : ℕ) (s : List DailyRecord) (W i : ℕ) : FeatureRow :=
  { date := (s.getD i default).date
    loc := loc
    stats := (List.range F).map (fun c => stats04 (colVals (windowAt s W i) c))
    targets := (s.getD i default).targets }

/-- `process_group` of `04_build_global_window_features.py` on one
(date-sorted) location series: empty output when `len(group) <= window_size`,
otherwise one row per index `i` in `range(window_size, len(group))`,
appended unconditionally. -/
def process_group (loc : Loc) (F : ℕ) (s : List DailyRecord) (W : ℕ) :
    List FeatureRow :=
  if s.length ≤ W then []
  else (List.range (s.length - W)).map (fun k => rowAt04 loc F s W (W + k))

/-- One feature row of the stage-2 variant (`02`, lines 47–64); targets are
kept in a separate list `y` by that code, so the row has no target fields. -/
structure FeatureRow02 where
  date : ℤ
  loc : Loc
  stats : List ColStats
  deriving DecidableEq, Repr, Inhabited

/-- The feature row the stage-2 variant builds for index `i`. -/
def rowAt02 (loc : Loc) (F : ℕ) (s : List DailyRecord) (W i : ℕ) : FeatureRow02 :=
  { date := (s.getD i default).date
    loc := loc
    stats := (List.range F).map (fun c => stats02 W (colVals (windowAt s W i) c)) }

/-- The target values at index `i` (`group[target_cols].iloc[i].values`). -/
def targetsAt (s : List DailyRecord) (i : ℕ) : List (Option ℚ) :=
  (s.getD i default).targets

/-- The stage-2 guard `not np.any(np.isnan(y_target))`: no target is NaN. -/
def noMissing (y : List (Option ℚ)) : Bool := y.all Option.isSome

/-- The body of `create_window_features_aggregated` for one location group
(`02`, lines 41–69): skip the group if `len(group) <= window_size`, else for
each `i` in `range(window_size, len(group))` build the feature row and the
target vector, appending both to the two accumulating lists only when no
target value is NaN. -/
def cwfaGroup (loc : Loc) (F : ℕ) (s : List DailyRecord) (W : ℕ) :
    List FeatureRow02 × List (List (Option ℚ)) :=
  if s.length ≤ W then ([], [])
  else
    (List.range (s.length - W)).foldl
      (fun acc k =>
        if noMissing (targetsAt s (W + k)) then
          (acc.1 ++ [rowAt02 loc F s W (W + k)], acc.2 ++ [targetsAt s (W + k)])
        else acc)
      ([], [])

/-- `create_window_features_aggregated` of `02_data_aggregation.py` over a
grouped table: the location groups in first-appearance order
(`groupby(..., sort=False)`), the feature rows and target vectors of all
groups accumulated into the two shared lists `X` and `y`. -/
def create_window_features_aggregated (F W : ℕ)
    (groups : List (Loc × List DailyRecord)) :
    List FeatureRow02 × List (List (Option ℚ)) :=
  groups.foldl
    (fun acc g =>
      ((acc.1 ++ (cwfaGroup g.1 F g.2 W).1, acc.2 ++ (cwfaGroup g.1 F g.2 W).2)))
    ([], [])

/-- The offsets `k` (index `i = W + k`) at which the stage-2 variant emits a
row: those whose target vector has no NaN. -/
def keptOffsets (s : List DailyRecord) (W : ℕ) : List ℕ :=
  (List.range (s.length - W)).filter (fun k => noMissing (targetsAt s (W + k)))

/-- The location/series/offset keys of the rows the stage-2 variant emits,
in emission order (groups in table order, indices ascending inside each). -/
def emittedKeys (W : ℕ) (groups : List (Loc × List DailyRecord)) :
    List ((Loc × List DailyRecord) × ℕ) :=
  (groups.map (fun g => (keptOffsets g.2 W).map (fun k => (g, k)))).flatten

/-- A stage-4 output row described by the data it is built from: a window
`w` of records and the target-day record `t`.  Statistics read only `w`;
the date and the target values read only `t`. -/
def mkRowFrom04 (loc : Loc) (F : ℕ) (w : List DailyRecord) (t : DailyRecord) :
    FeatureRow :=
  { date := t.date
    loc := loc
    stats := (List.range F).map (fun c => stats04 (colVals w c))
    targets := t.targets }

/-- The values of feature column `c` over the window that produces the
`k`-th emitted row (target index `i = W + k`): records `k … k+W-1`. -/
def winVals (s : List DailyRecord) (W k c : ℕ) : List ℚ :=
  colVals ((s.drop k).take W) c

/-- The statistics record of feature column `c` in the `k`-th row emitted by
the stage-4 builder. -/
def statOf04 (loc : Loc) (F : ℕ) (s : List DailyRecord) (W k c : ℕ) : ColStats :=
  ((process_group loc F s W).getD k default).stats.getD c default

/-- The statistics record of feature column `c` in the stage-2 feature row
at target index `i = W + k`. -/
def statOf02 (loc : Loc) (F : ℕ) (s : List DailyRecord) (W k c : ℕ) : ColStats :=
  (rowAt02 loc F s W (W + k)).stats.getD c default

/-! Incremental persistence of `main` in `04_build_global_window_features.py`
(lines 68–95).  The CSV file on disk is a `Sink`: the rows appended so far,
how many times the header line was written, and whether the file exists
(`to_csv(..., mode='a', header=not os.path.exists(OUTPUT_FILE))`). -/

/-- The output sink: persisted rows in order, number of header writes, and
file existence. -/
structure Sink (α : Type) where
  rows : List α
  headerWrites : ℕ
  fileExists : Bool
  deriving DecidableEq, Repr

/-- One `to_csv(..., mode='a', header=not os.path.exists(OUTPUT_FILE))` call:
append the batch, write the header exactly when the file does not yet
exist, after which it does. -/
def writeAppend {α : Type} (s : Sink α) (batch : List α) : Sink α :=
  { rows := s.rows ++ batch
    headerWrites := s.headerWrites + (if s.fileExists then 0 else 1)
    fileExists := true }

/-- The loop state of `main`: the in-memory `buffer` (a list of per-location
batches) and the on-disk sink. -/
structure MState (α : Type) where
  buffer : List (List α)
  sink : Sink α
  deriving DecidableEq, Repr

/-- One iteration of the location loop of `main` (lines 74–87): skip an
empty `out_df`, else append it to the buffer; once the buffered row count
reaches `CHUNK_SAVE_SIZE`, concatenate the buffer, append it to the file,
and clear the buffer.  (The `float64 → float32` narrowing before writing
changes cell values only, not row count, order, or header discipline, and
is not modelled.) -/
def accumulate {α : Type} (chunk : ℕ) (st : MState α) (batch : List α) :
    MState α :=
  if batch.isEmpty then st
  else
    if chunk ≤ ((st.buffer ++ [batch]).map List.length).sum then
      { buffer := [], sink := writeAppend st.sink (st.buffer ++ [batch]).flatten }
    else { buffer := st.buffer ++ [batch], sink := st.sink }

/-- The final flush of `main` (lines 90–95): persist the remainder of the
buffer, if any. -/
def finalFlush {α : Type} (st : MState α) : MState α :=
  if st.buffer.isEmpty then st
  else { buffer := [], sink := writeAppend st.sink st.buffer.flatten }

/-- The state before the location loop: empty buffer, and no output file on
disk (`main` removes a pre-existing `OUTPUT_FILE` before the loop). -/
def initState (α : Type) : MState α := ⟨[], ⟨[], 0, false⟩⟩

/-- The whole accumulate/flush discipline of `main`: fold the location
batches through `accumulate`, then final-flush; the result is the sink. -/
def runMain {α : Type} (chunk : ℕ) (batches : List (List α)) : Sink α :=
  (finalFlush (batches.foldl (accumulate chunk) (initState α))).sink

/-- The stage-4 input artifact (`INPUT_FILE`). -/
def INPUT_FILE : String := "era5_all_daily_features.csv"

/-- The stage that produces the stage-4 input. -/
def STAGE3_SCRIPT : String := "03_concat_daily_features.py"

/-- `main` of `04_build_global_window_features.py`: raise `FileNotFoundError`
with the diagnostic of line 57 when the input file is absent, else run
`process_group` over every location group and persist the batches through
the accumulate/flush discipline. -/
def main04 (inputExists : Bool) (chunk W F : ℕ)
    (groups : List (Loc × List DailyRecord)) : Except String (Sink FeatureRow) :=
  if !inputExists then
    Except.error (INPUT_FILE ++ " not found. Run " ++ STAGE3_SCRIPT ++ " first.")
  else
    Except.ok (runMain chunk (groups.map (fun g => process_group g.1 F g.2 W)))

/-! Next-day target creation of `02_data_aggregation.py` (lines 106–119):
`daily_stats` is sorted by `(latitude, longitude, date)`, each target-source
column is shifted by `-1` within its location group
(`groupby(['latitude','longitude'])[col].shift(-1)`), and rows with a NaN
in any `_next` column are dropped.  A frame sorted by location then date is
its list of location groups, each a date-sorted `List DRec`. -/

/-- A `daily_stats` row restricted to what target creation reads: the date
and the values of the target-source columns (`{var}_{stat}` for the
predicted variables) in a fixed order. -/
structure DRec where
  date : ℤ
  stats : List ℚ
  deriving DecidableEq, Repr, Inhabited

/-- The per-location `shift(-1)`: row `i` is paired with row `i+1`'s stat
values; the last row of the group gets NaN in every shifted column. -/
def shiftTargets (s : List DRec) : List (DRec × List (Option ℚ)) :=
  (List.range s.length).map (fun i =>
    (s.getD i default,
      if i + 1 < s.length then (s.getD (i + 1) default).stats.map some
      else (s.getD i default).stats.map (fun _ => none)))

/-- `dropna(subset=target_cols)`: keep the rows with no NaN target. -/
def dropIncomplete (rows : List (DRec × List (Option ℚ))) :
    List (DRec × List (Option ℚ)) :=
  rows.filter (fun p => p.2.all Option.isSome)

/-- The retained daily rows with their next-day targets, over all location
groups of the `(latitude, longitude, date)`-sorted frame. -/
def nextDayTargets (groups : List (Loc × List DRec)) :
    List (Loc × DRec × List (Option ℚ)) :=
  (groups.map (fun g => (dropIncomplete (shiftTargets g.2)).map
    (fun p => (g.1, p)))).flatten

/-! Helper lemmas. -/

theorem getD_map_range {α : Type} (f : ℕ → α) (d : α) {n k : ℕ} (hk : k < n) :
    ((List.range n).map f).getD k d = f k := by
  rw [List.getD_eq_getElem?_getD, List.getElem?_map, List.getElem?_range hk]
  rfl

theorem getD_mem_of_lt {α : Type} (s : List α) (d : α) {i : ℕ}
    (h : i < s.length) : s.getD i d ∈ s := by
  rw [List.getD_eq_getElem?_getD, List.getElem?_eq_getElem h]
  exact List.getElem_mem h

theorem windowAt_add (s : List DailyRecord) (W k : ℕ) :
    windowAt s W (W + k) = (s.drop k).take W := by
  simp [windowAt, Nat.add_sub_cancel_left]

theorem window_take_length {α : Type} (s : List α) {W k : ℕ}
    (hk : k < s.length - W) : ((s.drop k).take W).length = W := by
  rw [List.length_take, List.length_drop]
  omega

theorem windowAt_length (s : List DailyRecord) {W i : ℕ} (hWi : W ≤ i)
    (hi : i < s.length) : (windowAt s W i).length = W := by
  rw [windowAt, List.length_take, List.length_drop]
  omega

theorem colVals_length (w : List DailyRecord) (c : ℕ) :
    (colVals w c).length = w.length := by
  simp [colVals]

theorem stats02_eq_stats04 {W : ℕ} {vals : List ℚ} (h : vals.length = W) :
    stats02 W vals = stats04 vals := by
  subst h
  rfl

theorem lastN_length_of_le {n : ℕ} {l : List ℚ} (h : n ≤ l.length) :
    (lastN n l).length = n := by
  rw [lastN, List.length_drop]
  omega

theorem foldl_guard_pair {α β γ : Type} (p : α → Bool) (f : α → β) (g : α → γ) :
    ∀ (l : List α) (a : List β) (b : List γ),
      l.foldl
          (fun acc x => if p x then (acc.1 ++ [f x], acc.2 ++ [g x]) else acc)
          (a, b)
        = (a ++ (l.filter p).map f, b ++ (l.filter p).map g) := by
  intro l
  induction l with
  | nil => intro a b; simp
  | cons x xs ih =>
    intro a b
    by_cases hx : p x <;> simp [hx, ih, List.filter_cons]

theorem cwfaGroup_eq (loc : Loc) (F : ℕ) (s : List DailyRecord) (W : ℕ) :
    cwfaGroup loc F s W
      = ((keptOffsets s W).map (fun k => rowAt02 loc F s W (W + k)),
         (keptOffsets s W).map (fun k => targetsAt s (W + k))) := by
  unfold cwfaGroup keptOffsets
  by_cases h : s.length ≤ W
  · simp [h, Nat.sub_eq_zero_of_le h]
  · simp only [h, if_false]
    simpa using foldl_guard_pair
      (fun k => noMissing (targetsAt s (W + k)))
      (fun k => rowAt02 loc F s W (W + k))
      (fun k => targetsAt s (W + k))
      (List.range (s.length - W)) [] []

theorem foldl_pairConcat {β γ δ : Type} (h : δ → List β × List γ) :
    ∀ (l : List δ) (a : List β) (b : List γ),
      l.foldl (fun acc x => (acc.1 ++ (h x).1, acc.2 ++ (h x).2)) (a, b)
        = (a ++ (l.map (fun x => (h x).1)).flatten,
           b ++ (l.map (fun x => (h x).2)).flatten) := by
  intro l
  induction l with
  | nil => intro a b; simp
  | cons x xs ih => intro a b; simp [ih]

theorem cwfa_eq (F W : ℕ) (gs : List (Loc × List DailyRecord)) :
    create_window_features_aggregated F W gs
      = ((gs.map (fun g =>
            (keptOffsets g.2 W).map (fun k => rowAt02 g.1 F g.2 W (W + k)))).flatten,
         (gs.map (fun g =>
            (keptOffsets g.2 W).map (fun k => targetsAt g.2 (W + k)))).flatten) := by
  unfold create_window_features_aggregated
  rw [foldl_pairConcat (fun g : Loc × List DailyRecord => cwfaGroup g.1 F g.2 W)
    gs [] []]
  simp [cwfaGroup_eq]

/-- Invariant of the location loop of `main`: every buffered batch is
nonempty (empty `out_df`s are skipped), the output file exists exactly when
rows have been persisted, and the header has been written exactly once if
anything was persisted and never otherwise. -/
def GoodState {α : Type} (st : MState α) : Prop :=
  (∀ b ∈ st.buffer, b ≠ []) ∧
    st.sink.fileExists = !st.sink.rows.isEmpty ∧
    st.sink.headerWrites = (if st.sink.rows.isEmpty then 0 else 1)

theorem accumulate_spec {α : Type} (chunk : ℕ) (st : MState α) (batch : List α)
    (h : GoodState st) :
    GoodState (accumulate chunk st batch) ∧
      (accumulate chunk st batch).sink.rows
          ++ (accumulate chunk st batch).buffer.flatten
        = st.sink.rows ++ st.buffer.flatten ++ batch := by
  obtain ⟨hb, hex, hh⟩ := h
  unfold accumulate
  by_cases hbe : batch.isEmpty
  · have hb0 : batch = [] := List.isEmpty_iff.mp hbe
    subst hb0
    exact ⟨⟨hb, hex, hh⟩, by simp⟩
  · have hbne : batch ≠ [] := fun h0 => hbe (by simp [h0])
    simp only [hbe, Bool.false_eq_true, if_false]
    by_cases hth : chunk ≤ ((st.buffer ++ [batch]).map List.length).sum
    · simp only [hth, if_true]
      have hrowsne : st.sink.rows ++ (st.buffer ++ [batch]).flatten ≠ [] := by
        intro hnil
        have hflat := (List.append_eq_nil.mp hnil).2
        rw [List.flatten_append] at hflat
        have h2 := (List.append_eq_nil.mp hflat).2
        simp at h2
        exact hbne h2
      have hrowsE :
          (st.sink.rows ++ (st.buffer ++ [batch]).flatten).isEmpty = false :=
        List.isEmpty_eq_false.mpr hrowsne
      refine ⟨⟨by simp, ?_, ?_⟩, ?_⟩
      · simp only [writeAppend]
        rw [hrowsE]
        rfl
      · simp only [writeAppend, hrowsE]
        cases hre : st.sink.rows.isEmpty
        · rw [hre] at hex hh
          simp [hex, hh]
        · rw [hre] at hex hh
          simp [hex, hh]
      · simp [writeAppend, List.flatten_append, List.append_assoc]
    · simp only [hth, if_false]
      refine ⟨⟨?_, hex, hh⟩, ?_⟩
      · intro b hb'
        rcases List.mem_append.mp hb' with h0 | h0
        · exact hb b h0
        · simp at h0; subst h0; exact hbne
      · simp [List.flatten_append, List.append_assoc]

theorem foldl_accumulate_spec {α : Type} (chunk : ℕ) :
    ∀ (batches : List (List α)) (st : MState α), GoodState st →
      GoodState (batches.foldl (accumulate chunk) st) ∧
        (batches.foldl (accumulate chunk) st).sink.rows
            ++ (batches.foldl (accumulate chunk) st).buffer.flatten
          = st.sink.rows ++ st.buffer.flatten ++ batches.flatten := by
  intro batches
  induction batches with
  | nil => intro st h; exact ⟨h, by simp⟩
  | cons b bs ih =>
    intro st h
    obtain ⟨h1, h2⟩ := accumulate_spec chunk st b h
    obtain ⟨h3, h4⟩ := ih _ h1
    refine ⟨by simpa using h3, ?_⟩
    rw [List.foldl_cons, h4, h2, List.flatten_cons]
    simp [List.append_assoc]

theorem finalFlush_spec {α : Type} (st : MState α) (h : GoodState st) :
    (finalFlush st).sink.rows = st.sink.rows ++ st.buffer.flatten ∧
      (finalFlush st).sink.headerWrites
        = (if (finalFlush st).sink.rows.isEmpty then 0 else 1) := by
  obtain ⟨hb, hex, hh⟩ := h
  unfold finalFlush
  by_cases hbe : st.buffer.isEmpty
  · have hb0 : st.buffer = [] := List.isEmpty_iff.mp hbe
    rw [if_pos hbe]
    exact ⟨by rw [hb0]; simp, hh⟩
  · have hbne : st.buffer ≠ [] := fun h0 => hbe (by simp [h0])
    have hflat : st.buffer.flatten ≠ [] := by
      cases hbuf : st.buffer with
      | nil => exact absurd hbuf hbne
      | cons x xs =>
        rw [List.flatten_cons]
        intro hnil
        exact hb x (by rw [hbuf]; exact List.mem_cons_self x xs)
          (List.append_eq_nil.mp hnil).1
    have hne : st.sink.rows ++ st.buffer.flatten ≠ [] := by
      intro hnil
      exact hflat (List.append_eq_nil.mp hnil).2
    have hneE : (st.sink.rows ++ st.buffer.flatten).isEmpty = false :=
      List.isEmpty_eq_false.mpr hne
    rw [if_neg hbe]
    refine ⟨by simp [writeAppend], ?_⟩
    simp only [writeAppend, hneE]
    cases hre : st.sink.rows.isEmpty
    · rw [hre] at hex hh
      simp [hex, hh]
    · rw [hre] at hex hh
      simp [hex, hh]

theorem initState_good (α : Type) : GoodState (initState α) := by
  refine ⟨by simp [initState], by simp [initState], by simp [initState]⟩

theorem runMain_spec {α : Type} (chunk : ℕ) (batches : List (List α)) :
    (runMain chunk batches).rows = batches.flatten ∧
      (runMain chunk batches).headerWrites
        = (if batches.flatten.isEmpty then 0 else 1) := by
  obtain ⟨hg, heq⟩ := foldl_accumulate_spec chunk batches (initState α)
    (initState_good α)
  obtain ⟨hr, hh⟩ := finalFlush_spec _ hg
  have heq2 :
      (batches.foldl (accumulate chunk) (initState α)).sink.rows
          ++ (batches.foldl (accumulate chunk) (initState α)).buffer.flatten
        = batches.flatten := by
    simpa [initState] using heq
  unfold runMain
  exact ⟨by rw [hr, heq2], by rw [hh, hr, heq2]⟩

theorem range_filter_lt_pred (n : ℕ) :
    (List.range n).filter (fun i => decide (i + 1 < n)) = List.range (n - 1) := by
  cases n with
  | zero => simp
  | succ m =>
    rw [List.range_succ, List.filter_append]
    have h1 : (List.range m).filter (fun i => decide (i + 1 < m + 1))
        = List.range m :=
      List.filter_eq_self.mpr (fun a ha => by
        simp only [List.mem_range] at ha
        simp [ha])
    simp [h1]

theorem dropIncomplete_shiftTargets (s : List DRec)
    (hne : ∀ r ∈ s, r.stats ≠ []) :
    dropIncomplete (shiftTargets s)
      = (List.range (s.length - 1)).map
          (fun i => (s.getD i default, (s.getD (i + 1) default).stats.map some)) := by
  unfold dropIncomplete shiftTargets
  rw [List.filter_map]
  have hfc : ∀ i ∈ List.range s.length,
      ((fun p : DRec × List (Option ℚ) => p.2.all Option.isSome) ∘
        (fun i => (s.getD i default,
          if i + 1 < s.length then (s.getD (i + 1) default).stats.map some
          else (s.getD i default).stats.map (fun _ => none)))) i
        = decide (i + 1 < s.length) := by
    intro i hi
    simp only [List.mem_range] at hi
    by_cases hlt : i + 1 < s.length
    · simp only [Function.comp_apply, if_pos hlt]
      rw [decide_eq_true hlt]
      rw [List.all_eq_true]
      intro x hx
      rcases List.mem_map.mp hx with ⟨v, -, hv⟩
      rw [← hv]
      rfl
    · simp only [Function.comp_apply, if_neg hlt]
      rw [decide_eq_false hlt]
      have hrs := hne (s.getD i default) (getD_mem_of_lt s default hi)
      cases hstats : (s.getD i default).stats with
      | nil => exact absurd hstats hrs
      | cons v vs => simp [hstats]
  rw [List.filter_congr hfc, range_filter_lt_pred]
  exact List.map_congr_left (fun i hi => by
    simp only [List.mem_range] at hi
    rw [if_pos (by omega)])

theorem nextDayTargets_eq (groups : List (Loc × List DRec))
    (hne : ∀ g ∈ groups, ∀ r ∈ g.2, r.stats ≠ []) :
    nextDayTargets groups
      = (groups.map (fun g => (List.range (g.2.length - 1)).map
          (fun i => (g.1, g.2.getD i default,
            (g.2.getD (i + 1) default).stats.map some)))).flatten := by
  unfold nextDayTargets
  congr 1
  exact List.map_congr_left (fun g hg => by
    rw [dropIncomplete_shiftTargets g.2 (hne g hg), List.map_map]
    rfl)

theorem statOf04_eq (loc : Loc) (F : ℕ) (s : List DailyRecord) {W k c : ℕ}
    (hk : k < s.length - W) (hc : c < F) :
    statOf04 loc F s W k c = stats04 (winVals s W k c) := by
  unfold statOf04 process_group
  rw [if_neg (by omega : ¬ s.length ≤ W), getD_map_range _ _ hk]
  simp only [rowAt04]
  rw [getD_map_range _ _ hc, windowAt_add]
  rfl

theorem statOf02_eq (loc : Loc) (F : ℕ) (s : List DailyRecord) {W k c : ℕ}
    (hc : c < F) :
    statOf02 loc F s W k c = stats02 W (winVals s W k c) := by
  unfold statOf02
  simp only [rowAt02]
  rw [getD_map_range _ _ hc, windowAt_add]
  rfl

theorem winVals_length (s : List DailyRecord) {W k : ℕ} (c : ℕ)
    (hk : k < s.length - W) : (winVals s W k c).length = W := by
  rw [winVals, colVals_length, window_take_length s hk]

/-! Concrete data used by counterexamples and witnesses. -/

/-- A sample location. -/
def exLoc : Loc := (10, 20)

/-- Day 0, one feature value, target present. -/
def exRecA : DailyRecord := ⟨0, [1], [some 1]⟩

/-- Day 1 with a missing (NaN) target value. -/
def exRecMissing : DailyRecord := ⟨1, [2], [none]⟩

/-- Day 1 with its target present. -/
def exRecB : DailyRecord := ⟨1, [2], [some 2]⟩

/-- A two-day series whose second day has a NaN target. -/
def exSeriesMissing : List DailyRecord := [exRecA, exRecMissing]

/-- A two-day series with all targets present. -/
def exSeriesOk : List DailyRecord := [exRecA, exRecB]

/-- A one-location grouped table with all targets present. -/
def exGroupsOk : List (Loc × List DailyRecord) := [(exLoc, exSeriesOk)]

/-- A four-day series with all targets present (supports `W = 3`). -/
def exSeries4 : List DailyRecord :=
  [⟨0, [1], [some 1]⟩, ⟨1, [2], [some 2]⟩, ⟨2, [4], [some 3]⟩, ⟨3, [8], [some 4]⟩]

/-- Two daily-aggregation rows for one location (the spec's next-day target
example: `t2m_mean = 10` on day D, `12` on day D+1). -/
def exDGroups : List (Loc × List DRec) := [(exLoc, [⟨0, [10]⟩, ⟨1, [12]⟩])]

/-! Claim theorems. -/

/-- C1 counterexample: on a series whose target at the emitted index is
missing, the stage-4 builder `process_group` emits the row anyway — its
single output row has a NaN target value, so rows with missing targets are
NOT skipped by the stage-4 builder. -/
theorem claim1_counterexample :
    (process_group exLoc 1 exSeriesMissing 1).map
        (fun row => row.targets.all Option.isSome)
      = [false] := by decide

/-- C1 (amended): rows with a missing target value are silently skipped by
the stage-2 in-process variant — every target vector it returns has no NaN
— while the standalone stage-4 builder performs no missing-target check and
emits one row per index `i ∈ [W, N)` unconditionally, copying the
(possibly missing) target values unchanged. -/
theorem claim1_amended_guard :
    (∀ (F W : ℕ) (gs : List (Loc × List DailyRecord)) (y : List (Option ℚ)),
        y ∈ (create_window_features_aggregated F W gs).2 →
          y.all Option.isSome = true)
    ∧ (∀ (loc : Loc) (F : ℕ) (s : List DailyRecord) (W : ℕ),
        (process_group loc F s W).map FeatureRow.targets
          = (List.range (s.length - W)).map (fun k => targetsAt s (W + k))) := by
  constructor
  · intro F W gs y hy
    have h2 : (create_window_features_aggregated F W gs).2
        = (gs.map (fun g =>
            (keptOffsets g.2 W).map (fun k => targetsAt g.2 (W + k)))).flatten := by
      rw [cwfa_eq]
    rw [h2] at hy
    rcases List.mem_flatten.mp hy with ⟨l, hl, hyl⟩
    rcases List.mem_map.mp hl with ⟨g, -, rfl⟩
    rcases List.mem_map.mp hyl with ⟨k, hk, rfl⟩
    exact (List.mem_filter.mp hk).2
  · intro loc F s W
    unfold process_group
    by_cases h : s.length ≤ W
    · simp [Nat.sub_eq_zero_of_le h]
    · rw [if_neg h, List.map_map]
      rfl

/-- C1 witness: a concrete target vector emitted by the stage-2 variant,
shown NaN-free by the amended theorem. -/
theorem claim1_witness :
    ([some (2 : ℚ)] : List (Option ℚ)).all Option.isSome = true :=
  claim1_amended_guard.1 1 1 exGroupsOk [some 2] (by decide)

/-- C2 counterexample: a single-location series of length `N = 2` with
`W = 1` whose day-1 target is missing; the stage-2 variant emits 0 rows,
not `max 0 (N - W) = 1`. -/
theorem claim2_counterexample :
    ((create_window_features_aggregated 1 1 [(exLoc, exSeriesMissing)]).1.length : ℤ)
      ≠ max 0 ((exSeriesMissing.length : ℤ) - 1) := by decide

/-- C2 (amended): the stage-4 builder `process_group` emits exactly
`max 0 (N - W)` rows for every series (so `N ≤ W` gives an empty output and
no error); the stage-2 variant emits exactly one row per non-missing-target
index, which equals `max 0 (N - W)` exactly when no target value in the
series is missing. -/
theorem claim2_amended_counts :
    (∀ (loc : Loc) (F : ℕ) (s : List DailyRecord) (W : ℕ),
        ((process_group loc F s W).length : ℤ)
          = max 0 ((s.length : ℤ) - (W : ℤ)))
    ∧ (∀ (loc : Loc) (F : ℕ) (s : List DailyRecord) (W : ℕ),
        (cwfaGroup loc F s W).1.length = (keptOffsets s W).length
          ∧ (cwfaGroup loc F s W).2.length = (keptOffsets s W).length)
    ∧ (∀ (loc : Loc) (F : ℕ) (s : List DailyRecord) (W : ℕ),
        (∀ r ∈ s, noMissing r.targets = true) →
          ((cwfaGroup loc F s W).1.length : ℤ)
            = max 0 ((s.length : ℤ) - (W : ℤ))) := by
  refine ⟨?_, ?_, ?_⟩
  · intro loc F s W
    unfold process_group
    by_cases h : s.length ≤ W
    · rw [if_pos h]
      simp only [List.length_nil]
      omega
    · rw [if_neg h]
      simp only [List.length_map, List.length_range]
      omega
  · intro loc F s W
    rw [cwfaGroup_eq]
    simp
  · intro loc F s W hall
    rw [cwfaGroup_eq]
    simp only [List.length_map]
    have hkept : keptOffsets s W = List.range (s.length - W) := by
      unfold keptOffsets
      refine List.filter_eq_self.mpr (fun k hk => ?_)
      simp only [List.mem_range] at hk
      exact hall (s.getD (W + k) default) (getD_mem_of_lt s default (by omega))
    rw [hkept]
    simp only [List.length_range]
    omega

/-- C2 witness: on a fully-present two-day series with `W = 1` the stage-2
variant emits exactly `max 0 (2 - 1) = 1` row. -/
theorem claim2_witness :
    ((cwfaGroup exLoc 1 exSeriesOk 1).1.length : ℤ)
      = max 0 ((exSeriesOk.length : ℤ) - (1 : ℤ)) :=
  claim2_amended_counts.2.2 exLoc 1 exSeriesOk 1 (by decide)

/-- C3: every row the builders emit is built from a strictly historical
window.  (1) The stage-4 builder's output is exactly one row per offset
`k` (target index `i = W + k`), built by `mkRowFrom04` from the window
`series[i-W : i] = (s.drop k).take W` — the records strictly preceding
index `i` — and the record at index `i`, whose date and targets the row
carries; no record at index `i` or later enters any statistic.  (2) Such a
window holds exactly `W` records whenever the row is emitted.  (3) The
stage-2 variant's emitted feature rows are likewise built from the window
`(s.drop k).take W` and dated by the record at index `W + k`. -/
theorem claim3_window_boundaries :
    (∀ (loc : Loc) (F : ℕ) (s : List DailyRecord) (W : ℕ),
        process_group loc F s W
          = (List.range (s.length - W)).map
              (fun k => mkRowFrom04 loc F ((s.drop k).take W)
                (s.getD (W + k) default)))
    ∧ (∀ (s : List DailyRecord) (W k : ℕ), k < s.length - W →
        ((s.drop k).take W).length = W)
    ∧ (∀ (loc : Loc) (F : ℕ) (s : List DailyRecord) (W : ℕ),
        (cwfaGroup loc F s W).1
          = (keptOffsets s W).map (fun k =>
              (⟨(s.getD (W + k) default).date, loc,
                (List.range F).map
                  (fun c => stats02 W (colVals ((s.drop k).take W) c))⟩ :
                FeatureRow02))) := by
  refine ⟨?_, ?_, ?_⟩
  · intro loc F s W
    unfold process_group
    by_cases h : s.length ≤ W
    · simp [Nat.sub_eq_zero_of_le h]
    · rw [if_neg h]
      exact List.map_congr_left (fun k _ => by
        simp [rowAt04, mkRowFrom04, windowAt_add])
  · intro s W k hk
    exact window_take_length s hk
  · intro loc F s W
    rw [cwfaGroup_eq]
    exact List.map_congr_left (fun k _ => by
      simp [rowAt02, windowAt_add])

/-- C3 witness: a concrete emitted window has exactly `W = 1` records. -/
theorem claim3_witness : ((exSeriesOk.drop 0).take 1).length = 1 :=
  claim3_window_boundaries.2.1 exSeriesOk 1 0 (by decide)

/-- C4: for any chunk threshold and any sequence of accumulated batches
totaling at least one row, the accumulate/flush discipline of `main`
persists exactly the concatenation of the batches — every row, in order,
with no duplication, so the persisted row count is the sum of the batch
sizes — and writes the schema header exactly once. -/
theorem claim4_persistence {α : Type} (chunk : ℕ) (batches : List (List α))
    (h : batches.flatten ≠ []) :
    (runMain chunk batches).rows = batches.flatten
    ∧ (runMain chunk batches).rows.length = (batches.map List.length).sum
    ∧ (runMain chunk batches).headerWrites = 1 := by
  obtain ⟨hr, hh⟩ := runMain_spec chunk batches
  refine ⟨hr, ?_, ?_⟩
  · rw [hr, List.length_flatten]
  · rw [hh]
    simp [List.isEmpty_eq_false.mpr h]

/-- C4 witness: two batches of sizes 2 and 1 with threshold 2 persist
exactly rows `[1, 2, 3]` and one header. -/
theorem claim4_witness :
    (runMain 2 ([[1, 2], [3]] : List (List ℕ))).rows = [[1, 2], [3]].flatten
    ∧ (runMain 2 ([[1, 2], [3]] : List (List ℕ))).rows.length
        = ([[1, 2], [3]].map List.length).sum
    ∧ (runMain 2 ([[1, 2], [3]] : List (List ℕ))).headerWrites = 1 :=
  claim4_persistence 2 ([[1, 2], [3]] : List (List ℕ)) (by decide)

/-- C5: over the location-grouped, date-sorted daily table with at least
one target-source column, the next-day target creation retains, per
location, exactly the rows having a successor in that location's series
(the last row of each location is dropped entirely), and pairs row `i`
with exactly the stat values of row `i + 1` of the same location. -/
theorem claim5_next_day_targets (groups : List (Loc × List DRec))
    (hne : ∀ g ∈ groups, ∀ r ∈ g.2, r.stats ≠ [])
    (_hsorted : ∀ g ∈ groups, List.Chain' (fun a b => a.date < b.date) g.2) :
    nextDayTargets groups
      = (groups.map (fun g => (List.range (g.2.length - 1)).map
          (fun i => (g.1, g.2.getD i default,
            (g.2.getD (i + 1) default).stats.map some)))).flatten :=
  nextDayTargets_eq groups hne

/-- C5 witness: the spec's example — day 0 has stat 10, day 1 has stat 12;
day 0 is retained with target 12, day 1 (no successor) is dropped. -/
theorem claim5_witness :
    nextDayTargets exDGroups
      = (exDGroups.map (fun g => (List.range (g.2.length - 1)).map
          (fun i => (g.1, g.2.getD i default,
            (g.2.getD (i + 1) default).stats.map some)))).flatten :=
  claim5_next_day_targets exDGroups (by decide)
    (by
      intro g hg
      simp only [exDGroups, List.mem_singleton] at hg
      subst hg
      simp [List.chain'_cons])

/-- C6: the per-index statistics of the stage-4 builder and of the stage-2
in-process variant coincide: for every location series, window size and
feature-column count, the statistics lists of the rows `process_group`
emits equal, index by index, those of the stage-2 feature rows at the same
target indices (all eight statistics, every feature column). -/
theorem claim6_variants_equal (loc : Loc) (F : ℕ) (s : List DailyRecord)
    (W : ℕ) :
    (process_group loc F s W).map FeatureRow.stats
      = (List.range (s.length - W)).map
          (fun k => (rowAt02 loc F s W (W + k)).stats) := by
  unfold process_group
  by_cases h : s.length ≤ W
  · simp [Nat.sub_eq_zero_of_le h]
  · rw [if_neg h, List.map_map]
    exact List.map_congr_left (fun k hk => by
      simp only [List.mem_range] at hk
      simp only [Function.comp_apply, rowAt04, rowAt02]
      exact (List.map_congr_left (fun c _ =>
        stats02_eq_stats04 (by
          rw [colVals_length,
            windowAt_length s (Nat.le_add_right W k) (by omega)]))).symm)

/-- C7: in every emitted row of either builder, the `recent_3d` statistic
of every feature column is present if and only if `W ≥ 3`; when present it
equals the arithmetic mean of exactly the 3 chronologically most recent
values of that row's `W`-value window, and when `W < 3` it is absent
(`none`, modelling a missing dict key), not null. -/
theorem claim7_recent_3d (loc : Loc) (F : ℕ) (s : List DailyRecord)
    (W k c : ℕ) (hk : k < s.length - W) (hc : c < F) :
    ((statOf04 loc F s W k c).recent_3d.isSome = true ↔ 3 ≤ W)
    ∧ ((statOf02 loc F s W k c).recent_3d.isSome = true ↔ 3 ≤ W)
    ∧ (3 ≤ W →
        (statOf04 loc F s W k c).recent_3d
            = some (npMean (lastN 3 (winVals s W k c)))
          ∧ (statOf02 loc F s W k c).recent_3d
            = some (npMean (lastN 3 (winVals s W k c)))
          ∧ (lastN 3 (winVals s W k c)).length = 3)
    ∧ (W < 3 → (statOf04 loc F s W k c).recent_3d = none
          ∧ (statOf02 loc F s W k c).recent_3d = none) := by
  have hlen : (winVals s W k c).length = W := winVals_length s c hk
  rw [statOf04_eq loc F s hk hc, statOf02_eq loc F s hc]
  refine ⟨?_, ?_, ?_, ?_⟩
  · simp only [stats04, hlen]
    by_cases h3 : 3 ≤ W
    · simp [h3]
    · simp [h3]
  · simp only [stats02]
    by_cases h3 : 3 ≤ W
    · simp [h3]
    · simp [h3]
  · intro h3
    refine ⟨by simp [stats04, hlen, h3], by simp [stats02, h3],
      lastN_length_of_le (by omega)⟩
  · intro h3
    refine ⟨by simp [stats04, hlen]; omega, by simp [stats02]; omega⟩

/-- C7 witness: with `W = 3` and the four-day series, `recent_3d` is
present in both variants, equals the mean of the 3 most recent window
values, and the slice has exactly 3 values. -/
theorem claim7_witness :
    ((statOf04 exLoc 1 exSeries4 3 0 0).recent_3d.isSome = true ↔ 3 ≤ 3)
    ∧ ((statOf02 exLoc 1 exSeries4 3 0 0).recent_3d.isSome = true ↔ 3 ≤ 3)
    ∧ (3 ≤ 3 →
        (statOf04 exLoc 1 exSeries4 3 0 0).recent_3d
            = some (npMean (lastN 3 (winVals exSeries4 3 0 0)))
          ∧ (statOf02 exLoc 1 exSeries4 3 0 0).recent_3d
            = some (npMean (lastN 3 (winVals exSeries4 3 0 0)))
          ∧ (lastN 3 (winVals exSeries4 3 0 0)).length = 3)
    ∧ (3 < 3 → (statOf04 exLoc 1 exSeries4 3 0 0).recent_3d = none
          ∧ (statOf02 exLoc 1 exSeries4 3 0 0).recent_3d = none) :=
  claim7_recent_3d exLoc 1 exSeries4 3 0 0 (by decide) (by decide)

/-- C8: in every emitted row of either builder (for `W ≥ 1`), the `std`
statistic is the population standard deviation: its square (`stdSq`)
times `W` equals the sum of squared deviations of the `W` window values
from the window mean — equivalently, `stdSq` is that sum divided by `W`,
not by `W - 1`. -/
theorem claim8_population_std (loc : Loc) (F : ℕ) (s : List DailyRecord)
    (W k c : ℕ) (hW : 1 ≤ W) (hk : k < s.length - W) (hc : c < F) :
    (statOf04 loc F s W k c).stdSq * (W : ℚ) = ssd (winVals s W k c)
    ∧ (statOf02 loc F s W k c).stdSq * (W : ℚ) = ssd (winVals s W k c)
    ∧ (statOf04 loc F s W k c).stdSq = ssd (winVals s W k c) / (W : ℚ) := by
  have hlen : (winVals s W k c).length = W := winVals_length s c hk
  have hW0 : (W : ℚ) ≠ 0 := Nat.cast_ne_zero.mpr (by omega)
  refine ⟨?_, ?_, ?_⟩
  · rw [statOf04_eq loc F s hk hc]
    simp only [stats04, npVarPop, hlen]
    exact div_mul_cancel₀ _ hW0
  · rw [statOf02_eq loc F s hc]
    simp only [stats02, npVarPop, hlen]
    exact div_mul_cancel₀ _ hW0
  · rw [statOf04_eq loc F s hk hc]
    simp only [stats04, npVarPop, hlen]

/-- C8 witness: concrete window `[1, 2, 4]` with `W = 3`. -/
theorem claim8_witness :
    (statOf04 exLoc 1 exSeries4 3 0 0).stdSq * ((3 : ℕ) : ℚ)
        = ssd (winVals exSeries4 3 0 0)
    ∧ (statOf02 exLoc 1 exSeries4 3 0 0).stdSq * ((3 : ℕ) : ℚ)
        = ssd (winVals exSeries4 3 0 0)
    ∧ (statOf04 exLoc 1 exSeries4 3 0 0).stdSq
        = ssd (winVals exSeries4 3 0 0) / ((3 : ℕ) : ℚ) :=
  claim8_population_std exLoc 1 exSeries4 3 0 0 (by decide) (by decide)
    (by decide)

/-- C9: when the stage-4 input file is absent, `main` raises an error
before producing any output, whose diagnostic names the missing artifact
(`era5_all_daily_features.csv`) and the stage that should have produced it
(`03_concat_daily_features.py`); when the file is present, this error
branch is not taken and the pipeline output is produced. -/
theorem claim9_missing_input (chunk W F : ℕ)
    (groups : List (Loc × List DailyRecord)) :
    main04 false chunk W F groups
        = Except.error
            (INPUT_FILE ++ " not found. Run " ++ STAGE3_SCRIPT ++ " first.")
    ∧ main04 true chunk W F groups
        = Except.ok
            (runMain chunk (groups.map (fun g => process_group g.1 F g.2 W))) :=
  ⟨rfl, rfl⟩

/-- C10: the stage-2 variant returns `X` and `y` of equal length, and both
are images of one list of emitted keys (location group and window offset):
row `k` of `y` is exactly the target vector of the same series position
whose window produced row `k` of `X`, so the two tables never go out of
alignment. -/
theorem claim10_xy_alignment (F W : ℕ) (gs : List (Loc × List DailyRecord)) :
    (create_window_features_aggregated F W gs).1.length
        = (create_window_features_aggregated F W gs).2.length
    ∧ (create_window_features_aggregated F W gs).1
        = (emittedKeys W gs).map (fun e => rowAt02 e.1.1 F e.1.2 W (W + e.2))
    ∧ (create_window_features_aggregated F W gs).2
        = (emittedKeys W gs).map (fun e => targetsAt e.1.2 (W + e.2)) := by
  have h := cwfa_eq F W gs
  have h1 : (create_window_features_aggregated F W gs).1
      = (gs.map (fun g =>
          (keptOffsets g.2 W).map (fun k => rowAt02 g.1 F g.2 W (W + k)))).flatten := by
    rw [h]
  have h2 : (create_window_features_aggregated F W gs).2
      = (gs.map (fun g =>
          (keptOffsets g.2 W).map (fun k => targetsAt g.2 (W + k)))).flatten := by
    rw [h]
  refine ⟨?_, ?_, ?_⟩
  · rw [h1, h2]
    simp only [List.length_flatten, List.map_map]
    congr 1
    exact List.map_congr_left (fun g _ => by simp)
  · rw [h1]
    unfold emittedKeys
    rw [List.map_flatten]
    congr 1
    rw [List.map_map]
    exact List.map_congr_left (fun g _ => by
      simp only [Function.comp_apply]
      rw [List.map_map]
      rfl)
  · rw [h2]
    unfold emittedKeys
    rw [List.map_flatten]
    congr 1
    rw [List.map_map]
    exact List.map_congr_left (fun g _ => by
      simp only [Function.comp_apply]
      rw [List.map_map]
      rfl)

end WeatherPrediction
